import Mathlib

/-!
Verification of the attachment-processor repository (`main.go` and its unnamed
upload variant) against its natural-language specification.

The Go code is shallowly embedded: Go strings become `List Char`, Go maps
(`map[string]*T`, keyed by title) become association lists iterated in list
order (Go map iteration order is unspecified, and every theorem below is
quantified over the list order), Go `int`/`int64` become `Int` with the
explicit `int64` range check of `strconv.ParseInt`, and fallible or panicking
code returns an explicit result type distinguishing a returned `error` value
from a runtime panic.
-/

namespace AttachProc

/-- Go strings are modelled as lists of characters. -/
abbrev Str := List Char

/-- First token of a token list; Go's `tokens[0]` (safe: `strings.Split` never
returns an empty slice). -/
def headTok : List Str → Str
  | [] => []
  | x :: _ => x

/-- Last token of a token list; Go's `tokens[len(tokens)-1]`. -/
def lastTok : List Str → Str
  | [] => []
  | [x] => x
  | _ :: x :: xs => lastTok (x :: xs)

/-- Go `strings.Split(s, sep)` for a one-character separator `c`: splits at
every occurrence of `c`, keeping empty pieces, and yields `[s]` (never `[]`)
when `c` does not occur. -/
def splitC (c : Char) : Str → List Str
  | [] => [[]]
  | x :: xs =>
    if x = c then [] :: splitC c xs
    else (x :: headTok (splitC c xs)) :: (splitC c xs).tail

/-- Go `strings.Join(tokens, sep)` for a one-character separator. -/
def joinSep (c : Char) : List Str → Str
  | [] => []
  | [s] => s
  | s :: s' :: rest => s ++ c :: joinSep c (s' :: rest)

@[simp] theorem headTok_nil : headTok [] = [] := rfl

@[simp] theorem headTok_cons (x : Str) (xs : List Str) : headTok (x :: xs) = x := rfl

@[simp] theorem lastTok_nil : lastTok [] = [] := rfl

@[simp] theorem lastTok_single (x : Str) : lastTok [x] = x := rfl

@[simp] theorem lastTok_cons_cons (x y : Str) (xs : List Str) :
    lastTok (x :: y :: xs) = lastTok (y :: xs) := rfl

theorem lastTok_append_single (l : List Str) (y : Str) : lastTok (l ++ [y]) = y := by
  induction l with
  | nil => rfl
  | cons a l ih =>
    cases l with
    | nil => rfl
    | cons b t => simpa using ih

theorem headTok_append (l l' : List Str) (h : l ≠ []) :
    headTok (l ++ l') = headTok l := by
  cases l with
  | nil => exact absurd rfl h
  | cons a t => rfl

@[simp] theorem splitC_nil (c : Char) : splitC c [] = [[]] := rfl

theorem splitC_cons (c x : Char) (xs : Str) :
    splitC c (x :: xs) =
      if x = c then [] :: splitC c xs
      else (x :: headTok (splitC c xs)) :: (splitC c xs).tail := rfl

theorem splitC_ne_nil (c : Char) (s : Str) : splitC c s ≠ [] := by
  cases s with
  | nil => simp
  | cons x xs =>
    rw [splitC_cons]
    by_cases h : x = c <;> simp [h]

/-- Splitting concatenated strings around an explicit separator occurrence
splits each side independently. -/
theorem splitC_append (c : Char) (xs ys : Str) :
    splitC c (xs ++ c :: ys) = splitC c xs ++ splitC c ys := by
  induction xs with
  | nil => simp [splitC_cons]
  | cons x xs ih =>
    by_cases h : x = c
    · simp [splitC_cons, h, ih]
    · rw [List.cons_append, splitC_cons, if_neg h, ih, splitC_cons, if_neg h]
      obtain ⟨t, ts, hts⟩ := List.exists_cons_of_ne_nil (splitC_ne_nil c xs)
      rw [hts]
      simp

theorem splitC_not_mem (c : Char) (s : Str) (h : c ∉ s) : splitC c s = [s] := by
  induction s with
  | nil => rfl
  | cons x xs ih =>
    simp only [List.mem_cons, not_or] at h
    rw [splitC_cons, if_neg (fun he => h.1 he.symm), ih h.2]
    rfl

theorem splitC_joinSep (c : Char) (segs : List Str) (hne : segs ≠ [])
    (hc : ∀ s ∈ segs, c ∉ s) : splitC c (joinSep c segs) = segs := by
  induction segs with
  | nil => exact absurd rfl hne
  | cons s rest ih =>
    cases rest with
    | nil => exact splitC_not_mem c s (hc s (by simp))
    | cons s' rest' =>
      have : joinSep c (s :: s' :: rest') = s ++ c :: joinSep c (s' :: rest') := rfl
      rw [this, splitC_append, splitC_not_mem c s (hc s (by simp)),
        ih (by simp) (fun t ht => hc t (by simp [ht]))]
      rfl

/-- `isPre pre s` holds when `pre` is an initial segment of `s`
(Go `strings.HasPrefix`). -/
def isPre : Str → Str → Bool
  | [], _ => true
  | _ :: _, [] => false
  | a :: as, b :: bs => a = b && isPre as bs

/-- Go `strings.HasSuffix`. -/
def isSuf (suf s : Str) : Bool := isPre suf.reverse s.reverse

@[simp] theorem isPre_nil (s : Str) : isPre [] s = true := rfl

theorem isPre_append_self (s t : Str) : isPre s (s ++ t) = true := by
  induction s with
  | nil => rfl
  | cons a as ih => simpa [isPre] using ih

/-- Index of the leftmost occurrence of `sep` in `s` (Go `strings.Index`). -/
def findSub (sep : Str) : Str → Option Nat
  | [] => if isPre sep [] then some 0 else none
  | x :: tl =>
    if isPre sep (x :: tl) then some 0
    else (findSub sep tl).map (· + 1)

theorem findSub_of_isPre (sep s : Str) (h : isPre sep s = true) :
    findSub sep s = some 0 := by
  cases s with
  | nil => simp [findSub, h]
  | cons x tl => simp [findSub, h]

theorem findSub_none_of_head_not_mem (c : Char) (cs s : Str) (h : c ∉ s) :
    findSub (c :: cs) s = none := by
  induction s with
  | nil => rfl
  | cons x tl ih =>
    have hxc : ¬(c = x) := fun he => h (by simp [he])
    have hfalse : isPre (c :: cs) (x :: tl) = false := by
      simp [isPre, hxc]
    rw [findSub, hfalse]
    simp [ih (fun hm => h (by simp [hm]))]

theorem findSub_some_lt (c : Char) (cs : Str) : ∀ (s : Str) (i : Nat),
    findSub (c :: cs) s = some i → i < s.length := by
  intro s
  induction s with
  | nil => intro i h; simp [findSub, isPre] at h
  | cons x tl ih =>
    intro i h
    by_cases hp : isPre (c :: cs) (x :: tl) = true
    · rw [findSub, if_pos hp] at h
      cases h
      simp
    · rw [findSub, if_neg hp] at h
      cases hft : findSub (c :: cs) tl with
      | none => rw [hft] at h; simp at h
      | some j =>
        rw [hft] at h
        have hj := ih j hft
        simp at h
        simp only [List.length_cons]
        omega

/-- Fuel-indexed worker for Go `strings.Split` with a multi-character
separator: repeatedly cut at the leftmost occurrence. -/
def goSplitSubAux (sep : Str) : Nat → Str → List Str
  | 0, s => [s]
  | n + 1, s =>
    match findSub sep s with
    | none => [s]
    | some i => s.take i :: goSplitSubAux sep n (s.drop (i + sep.length))

/-- Go `strings.Split(s, sep)` for a non-empty multi-character separator. -/
def goSplitSub (sep s : Str) : List Str := goSplitSubAux sep (s.length + 1) s

theorem goSplitSubAux_fuel (c : Char) (cs : Str) :
    ∀ n m s, s.length < n → s.length < m →
      goSplitSubAux (c :: cs) n s = goSplitSubAux (c :: cs) m s := by
  intro n
  induction n with
  | zero => intro m s h _; exact absurd h (by simp)
  | succ n ih =>
    intro m s hn hm
    cases m with
    | zero => exact absurd hm (by simp)
    | succ m =>
      rw [goSplitSubAux, goSplitSubAux]
      cases hf : findSub (c :: cs) s with
      | none => rfl
      | some i =>
        have hi := findSub_some_lt c cs s i hf
        have hlen : (s.drop (i + (c :: cs).length)).length < n := by
          simp only [List.length_drop, List.length_cons]
          omega
        have hlen' : (s.drop (i + (c :: cs).length)).length < m := by
          simp only [List.length_drop, List.length_cons]
          omega
        exact congrArg (fun l => s.take i :: l) (ih m _ hlen hlen')

/-- Cutting at a separator that stands at the front. -/
theorem goSplitSub_front (c : Char) (cs rest : Str) :
    goSplitSub (c :: cs) ((c :: cs) ++ rest) = [] :: goSplitSub (c :: cs) rest := by
  have hs : goSplitSub (c :: cs) ((c :: cs) ++ rest) =
      match findSub (c :: cs) ((c :: cs) ++ rest) with
      | none => [(c :: cs) ++ rest]
      | some i => ((c :: cs) ++ rest).take i ::
          goSplitSubAux (c :: cs) ((c :: cs) ++ rest).length
            (((c :: cs) ++ rest).drop (i + (c :: cs).length)) := rfl
  rw [hs, findSub_of_isPre _ _ (isPre_append_self _ _)]
  show ((c :: cs) ++ rest).take 0 ::
      goSplitSubAux (c :: cs) ((c :: cs) ++ rest).length
        (((c :: cs) ++ rest).drop (0 + (c :: cs).length))
      = [] :: goSplitSub (c :: cs) rest
  have hdrop : ((c :: cs) ++ rest).drop (0 + (c :: cs).length) = rest := by
    simp
  rw [List.take_zero, hdrop]
  exact congrArg (fun l => ([] : Str) :: l)
    (goSplitSubAux_fuel c cs _ _ rest
      (by simp only [List.length_append, List.length_cons]; omega) (by omega))

theorem goSplitSub_no_occurrence (sep s : Str) (h : findSub sep s = none) :
    goSplitSub sep s = [s] := by
  rw [goSplitSub, goSplitSubAux, h]

/-! ### Integer parsing (Go `strconv.ParseInt(s, 10, 64)`) -/

/-- Numeric value of a base-10 digit string. -/
def digitsVal (s : Str) : Nat :=
  s.foldl (fun n ch => n * 10 + (ch.toNat - '0'.toNat)) 0

/-- True when every character is a decimal digit. -/
def allDigits (s : Str) : Bool := s.all (·.isDigit)

/-- Shared digits-and-range part of `ParseInt`: the digit string must be
non-empty, all digits, and the signed value must fit in an `int64`. -/
def parseDec (neg : Bool) (t : Str) : Option Int :=
  if t = [] then none
  else if allDigits t then
    if neg then
      if digitsVal t ≤ 2 ^ 63 then some (-(digitsVal t : Int)) else none
    else
      if digitsVal t < 2 ^ 63 then some ((digitsVal t : Int)) else none
  else none

/-- Go `strconv.ParseInt(s, 10, 64)`: optional sign, decimal digits,
`int64` range; `none` models a returned parse error. -/
def goParseInt64 : Str → Option Int
  | [] => none
  | c :: t =>
    if c = '+' then parseDec false t
    else if c = '-' then parseDec true t
    else parseDec false (c :: t)

theorem not_mem_of_all_digits (s : Str) (c : Char)
    (hd : ∀ ch ∈ s, ch.isDigit = true) (hc : c.isDigit = false) : c ∉ s := by
  intro hm
  have := hd c hm
  rw [this] at hc
  exact absurd hc (by simp)

/-! ### Data model (the Go structs of main.go) -/

/-- The Go struct `attachment`; the Go field `Type` is rendered `Typ`
(`Type` is reserved in Lean), all other field names are kept. -/
structure attachment where
  Typ : Str
  URL : Str
  IssueNumber : Int
  CommentNumber : Int
  Path : Str
deriving DecidableEq

/-- The Go struct `issue`. -/
structure issue where
  URL : Str
  Number : Int
deriving DecidableEq

/-- The Go struct `ticket`. -/
structure ticket where
  Key : Str
  Uploaded : Bool
deriving DecidableEq

/-- The Go struct `database`. The Go maps `map[string]*issue` and
`map[string]*ticket` (keyed by title) are modelled as association lists;
iteration order is the list order and all theorems quantify over it. -/
structure database where
  Attachments : List attachment
  Issues : List (Str × issue)
  Tickets : List (Str × ticket)
deriving DecidableEq

/-- One raw export record, as decoded from an `attachments*.json` page
(the anonymous struct in `processAttachments`). -/
structure ExportRecord where
  issue : Str
  issue_comment : Str
  asset_url : Str
deriving DecidableEq

/-- Result of a piece of Go code that can either return a value, return an
`error`, or panic at runtime; `crash` models a panic (index out of range,
nil map entry), which is NOT an `error` return. -/
inductive RecResult (α : Type) where
  | ok (val : α)
  | err (msg : Str)
  | crash
deriving DecidableEq

/-! ### Export parser (`processAttachments`, main.go lines 211-278) -/

/-- The literal separator `issuecomment-` of main.go line 258. -/
def icMarker : Str := "issuecomment-".toList

/-- Lines 241-242 / 262-263: `pathTokens := strings.Split(assetURL, "/")`,
`path := strings.Join(pathTokens[3:], "/")`. Go slicing `tokens[3:]` panics
when the slice has fewer than 3 elements, which `none` models; with exactly
3 elements it yields the empty join. -/
def assetPath (url : Str) : Option Str :=
  if (splitC '/' url).length < 3 then none
  else some (joinSep '/' ((splitC '/' url).drop 3))

/-- Lines 234-272: processing of a single export record. `ok none` is a
record with both `issue` and `issue_comment` empty (dropped), `err` is a
returned parse error naming the offending value, `crash` is a Go panic. -/
def processRecord (r : ExportRecord) : RecResult (Option attachment) :=
  if r.issue ≠ [] then
    match goParseInt64 (lastTok (splitC '/' r.issue)) with
    | none => .err ("error parsing issue number from ".toList ++ r.issue)
    | some n =>
      match assetPath r.asset_url with
      | none => .crash
      | some p => .ok (some ⟨"issue".toList, r.issue, n, 0, p⟩)
  else if r.issue_comment ≠ [] then
    match goParseInt64 (headTok (splitC '#' (lastTok (splitC '/' r.issue_comment)))) with
    | none => .err ("error parsing issue number from ".toList ++ r.issue_comment)
    | some n =>
      let pieces := goSplitSub icMarker (lastTok (splitC '#' r.issue_comment))
      if pieces.length < 2 then .crash
      else
        match goParseInt64 (headTok (pieces.drop 1)) with
        | none => .err ("error parsing comment number from ".toList ++ r.issue_comment)
        | some m =>
          match assetPath r.asset_url with
          | none => .crash
          | some p => .ok (some ⟨"issue_comment".toList, r.issue_comment, n, m, p⟩)
  else .ok none

/-- All records of one export file, in order; the first `err`/`crash`
aborts the file (and with it the whole collection phase). -/
def processRecords : List ExportRecord → RecResult (List attachment)
  | [] => .ok []
  | r :: rest =>
    match processRecord r with
    | .crash => .crash
    | .err e => .err e
    | .ok none => processRecords rest
    | .ok (some a) =>
      match processRecords rest with
      | .crash => .crash
      | .err e => .err e
      | .ok l => .ok (a :: l)

/-- One file of the staging directory: its name and its decoded records
(JSON decoding itself is abstracted; malformed JSON is a separate, earlier
error return not needed by the claims below). -/
structure StageFile where
  name : Str
  records : List ExportRecord

/-- Line 218: only files named `attachments*.json` are considered. -/
def consideredFile (name : Str) : Bool :=
  isPre "attachments".toList name && isSuf ".json".toList name

/-- `processAttachments` over the staging directory listing. -/
def processStage : List StageFile → RecResult (List attachment)
  | [] => .ok []
  | f :: rest =>
    if consideredFile f.name then
      match processRecords f.records with
      | .crash => .crash
      | .err e => .err e
      | .ok l =>
        match processStage rest with
        | .crash => .crash
        | .err e => .err e
        | .ok l2 => .ok (l ++ l2)
    else processStage rest

/-! ### Claims C1-C4: the export parser -/

/-- C1. For every export record whose `issue` field is non-empty, the parser
produces an attachment of issue kind whose issue number equals the integer
value of the final `/`-delimited path segment of `issue`, and whose relative
path is the `asset_url` path segments from the 4th segment (0-indexed 3)
onward joined with `/`. (`issue = pre ++ "/" ++ Nstr` exhibits the final
segment; `asset_url = joinSep '/' segs` exhibits the path segments.) -/
theorem processRecord_issue_sound (r : ExportRecord) (pre Nstr : Str)
    (segs : List Str) (n : Int)
    (hIss : r.issue = pre ++ '/' :: Nstr) (hN : '/' ∉ Nstr)
    (hparse : goParseInt64 Nstr = some n)
    (hURL : r.asset_url = joinSep '/' segs) (hsegs : ∀ s ∈ segs, '/' ∉ s)
    (hne : segs ≠ []) (hlen : 3 ≤ segs.length) :
    processRecord r =
      .ok (some ⟨"issue".toList, r.issue, n, 0, joinSep '/' (segs.drop 3)⟩) := by
  have hlast : lastTok (splitC '/' r.issue) = Nstr := by
    rw [hIss, splitC_append, splitC_not_mem _ _ hN, lastTok_append_single]
  have hap : assetPath r.asset_url = some (joinSep '/' (segs.drop 3)) := by
    rw [hURL]
    unfold assetPath
    rw [splitC_joinSep _ _ hne hsegs, if_neg (by omega)]
  have hne' : r.issue ≠ [] := by
    rw [hIss]; cases pre <;> simp
  unfold processRecord
  rw [if_pos hne', hlast, hparse, hap]

/-- Closed witness for `processRecord_issue_sound` at a concrete GitHub-style
record. -/
theorem processRecord_issue_sound_witness :
    processRecord ⟨"https://github.com/o/r/issues/42".toList, [],
        "https://host/a/b/file.png".toList⟩ =
      .ok (some ⟨"issue".toList, "https://github.com/o/r/issues/42".toList, 42, 0,
        "a/b/file.png".toList⟩) := by
  have h := processRecord_issue_sound
    ⟨"https://github.com/o/r/issues/42".toList, [], "https://host/a/b/file.png".toList⟩
    "https://github.com/o/r/issues".toList "42".toList
    ["https:".toList, [], "host".toList, "a".toList, "b".toList, "file.png".toList]
    42 (by decide) (by decide) (by decide) (by decide) (by decide) (by decide)
    (by decide)
  exact h.trans (by decide)

/-- C2. For every export record with empty `issue` and non-empty
`issue_comment` of the form `.../N#issuecomment-M` (N, M decimal numerals),
the parser produces a comment-kind attachment with issue number N and
comment number M; the relative path derives from `asset_url` as in C1. -/
theorem processRecord_comment_sound (r : ExportRecord) (pre Nstr Mstr : Str)
    (segs : List Str) (n m : Int)
    (hIssEmpty : r.issue = [])
    (hIC : r.issue_comment = pre ++ '/' :: (Nstr ++ '#' :: (icMarker ++ Mstr)))
    (hNd : ∀ ch ∈ Nstr, ch.isDigit = true)
    (hMd : ∀ ch ∈ Mstr, ch.isDigit = true)
    (hparseN : goParseInt64 Nstr = some n)
    (hparseM : goParseInt64 Mstr = some m)
    (hURL : r.asset_url = joinSep '/' segs) (hsegs : ∀ s ∈ segs, '/' ∉ s)
    (hne : segs ≠ []) (hlen : 3 ≤ segs.length) :
    processRecord r =
      .ok (some ⟨"issue_comment".toList, r.issue_comment, n, m,
        joinSep '/' (segs.drop 3)⟩) := by
  have hNslash : '/' ∉ Nstr := not_mem_of_all_digits _ _ hNd (by decide)
  have hNhash : '#' ∉ Nstr := not_mem_of_all_digits _ _ hNd (by decide)
  have hMslash : '/' ∉ Mstr := not_mem_of_all_digits _ _ hMd (by decide)
  have hMhash : '#' ∉ Mstr := not_mem_of_all_digits _ _ hMd (by decide)
  have hMi : 'i' ∉ Mstr := not_mem_of_all_digits _ _ hMd (by decide)
  have htail : '/' ∉ Nstr ++ '#' :: (icMarker ++ Mstr) := by
    intro hmem
    rcases List.mem_append.1 hmem with h1 | h1
    · exact hNslash h1
    · rcases List.mem_cons.1 h1 with h2 | h2
      · exact absurd h2 (by decide)
      · rcases List.mem_append.1 h2 with h3 | h3
        · exact absurd h3 (by decide)
        · exact hMslash h3
  have hlast1 : lastTok (splitC '/' r.issue_comment) =
      Nstr ++ '#' :: (icMarker ++ Mstr) := by
    rw [hIC, splitC_append, splitC_not_mem _ _ htail, lastTok_append_single]
  have hafter : '#' ∉ icMarker ++ Mstr := by
    intro hmem
    rcases List.mem_append.1 hmem with h1 | h1
    · exact absurd h1 (by decide)
    · exact hMhash h1
  have hhead : headTok (splitC '#' (lastTok (splitC '/' r.issue_comment))) = Nstr := by
    rw [hlast1, splitC_append, splitC_not_mem _ _ hNhash]
    rfl
  have hlast2 : lastTok (splitC '#' r.issue_comment) = icMarker ++ Mstr := by
    have hre : r.issue_comment = (pre ++ '/' :: Nstr) ++ '#' :: (icMarker ++ Mstr) := by
      rw [hIC]; simp
    rw [hre, splitC_append, splitC_not_mem _ _ hafter, lastTok_append_single]
  have hpieces : goSplitSub icMarker (lastTok (splitC '#' r.issue_comment)) =
      [[], Mstr] := by
    rw [hlast2]
    have hm : icMarker = 'i' :: "ssuecomment-".toList := rfl
    rw [hm, goSplitSub_front,
      goSplitSub_no_occurrence _ _ (findSub_none_of_head_not_mem _ _ _ hMi)]
  have hap : assetPath r.asset_url = some (joinSep '/' (segs.drop 3)) := by
    rw [hURL]
    unfold assetPath
    rw [splitC_joinSep _ _ hne hsegs, if_neg (by omega)]
  have hne' : ¬(r.issue ≠ []) := by rw [hIssEmpty]; simp
  have hnec : r.issue_comment ≠ [] := by
    rw [hIC]; cases pre <;> simp
  unfold processRecord
  rw [if_neg hne', if_pos hnec, hhead, hparseN, hpieces]
  simp [hparseM, hap]

/-- Closed witness for `processRecord_comment_sound` at a concrete
GitHub-style comment record. -/
theorem processRecord_comment_sound_witness :
    processRecord ⟨[], "https://github.com/o/r/issues/17#issuecomment-99".toList,
        "https://host/a/b/file.png".toList⟩ =
      .ok (some ⟨"issue_comment".toList,
        "https://github.com/o/r/issues/17#issuecomment-99".toList, 17, 99,
        "a/b/file.png".toList⟩) := by
  have h := processRecord_comment_sound
    ⟨[], "https://github.com/o/r/issues/17#issuecomment-99".toList,
      "https://host/a/b/file.png".toList⟩
    "https://github.com/o/r/issues".toList "17".toList "99".toList
    ["https:".toList, [], "host".toList, "a".toList, "b".toList, "file.png".toList]
    17 99 (by decide) (by decide) (by decide) (by decide) (by decide) (by decide)
    (by decide) (by decide) (by decide) (by decide)
  exact h.trans (by decide)

/-- C3. Asset-path derivation drops exactly the first three `/`-separated
segments of the asset URL: whenever it fails the URL had fewer than four
segments, and for every URL with at least four segments it succeeds, with
the remaining segments joined by `/`. (In fact the code fails only below
three segments; with exactly three it succeeds with the empty path, which
still satisfies the claim as stated.) -/
theorem assetPath_drops_three (url : Str) :
    (assetPath url = none → (splitC '/' url).length < 4)
    ∧ (4 ≤ (splitC '/' url).length →
        assetPath url = some (joinSep '/' ((splitC '/' url).drop 3))) := by
  constructor
  · intro h
    unfold assetPath at h
    by_cases hl : (splitC '/' url).length < 3
    · omega
    · rw [if_neg hl] at h
      exact absurd h (by simp)
  · intro h
    unfold assetPath
    rw [if_neg (by omega)]

/-- Closed witness for `assetPath_drops_three` on a four-segment URL. -/
theorem assetPath_drops_three_witness :
    4 ≤ (splitC '/' "a/b/c/d".toList).length ∧
      assetPath "a/b/c/d".toList =
        some (joinSep '/' ((splitC '/' "a/b/c/d".toList).drop 3)) :=
  ⟨by decide, (assetPath_drops_three "a/b/c/d".toList).2 (by decide)⟩

/-- C4 (code bug). A considered export file holding a record whose
`issue_comment` lacks the `issuecomment-` marker makes `processAttachments`
panic with an index-out-of-range (Go line 258 indexes `[1]` into a
one-element split), instead of returning the descriptive error the spec
promises. -/
theorem processStage_missing_marker_crash :
    processStage [⟨"attachments_1.json".toList,
      [⟨[], "a/15#oops".toList, "x/y/z/w".toList⟩]⟩] = .crash := by
  decide

/-! ### Remote listers (`processIssues` lines 280-311, `processTickets`
lines 328-353) -/

/-- Association-list lookup; Go map read `m[k]` (missing key gives the nil
pointer, modelled `none`). -/
def lookupT {β : Type} : List (Str × β) → Str → Option β
  | [], _ => none
  | (k, v) :: rest, t => if k = t then some v else lookupT rest t

/-- Go map assignment `m[k] = v`: overwrite the existing entry or add a new
one (silent last-write-wins on title collisions). -/
def insertT {β : Type} (m : List (Str × β)) (k : Str) (v : β) : List (Str × β) :=
  if (lookupT m k).isSome then
    m.map (fun p => if p.1 = k then (k, v) else p)
  else m ++ [(k, v)]

/-- The fields of a GitHub issue read by `processIssues`. -/
structure ghIssue where
  htmlURL : Str
  number : Int
  title : Str

/-- One GitHub listing page plus the pagination fields read from the
response. -/
structure IssuePage where
  issues : List ghIssue
  nextPage : Nat
  lastPage : Nat

/-- Outcome of one remote page fetch: a page, or an error together with the
HTTP status code that the Go code inspects on the response. -/
inductive FetchResult (α : Type) where
  | ok (page : α)
  | err (status : Nat) (msg : Str)

/-- Line 292: the distinguished not-found message of the issue lister. -/
def issuesNotFoundMsg (org repo : Str) : Str :=
  "repository ".toList ++ org ++ "/".toList ++ repo ++ " not found".toList

/-- Line 294: the generic issue-listing failure message. -/
def issuesListFailMsg (org repo msg : Str) : Str :=
  "failed listing issues for ".toList ++ org ++ "/".toList ++ repo ++ ": ".toList ++ msg

/-- Line 336: the (only) ticket-search failure message; note the source has
no status-code inspection in `processTickets`. -/
def ticketsSearchFailMsg (key msg : Str) : Str :=
  "failed searching for tickets in ".toList ++ key ++ ": ".toList ++ msg

/-- `processIssues` page loop, fuel-indexed (the Go loop runs until
`NextPage == 0`; fuel bounds the iterations, enough fuel reproduces any
finite run). Entries land in the title-keyed map, last write wins. -/
def processIssuesModel (fetch : Nat → FetchResult IssuePage) (org repo : Str) :
    Nat → Nat → List (Str × issue) → Except Str (List (Str × issue))
  | 0, _, m => .ok m
  | fuel + 1, page, m =>
    match fetch page with
    | .err status msg =>
      if status = 404 then .error (issuesNotFoundMsg org repo)
      else .error (issuesListFailMsg org repo msg)
    | .ok pg =>
      let m' := pg.issues.foldl
        (fun acc gi => insertT acc gi.title ⟨gi.htmlURL, gi.number⟩) m
      if pg.nextPage = 0 then .ok m'
      else processIssuesModel fetch org repo fuel pg.nextPage m'

/-- The fields of a JIRA issue read by `processTickets`. -/
structure jiraIssue where
  key : Str
  summary : Str

/-- One JIRA search page plus the pagination fields read from the
response. -/
structure TicketPage where
  issues : List jiraIssue
  startAt : Int
  maxResults : Int
  total : Int

/-- `processTickets` page loop, fuel-indexed; every fetch failure is wrapped
in the same generic message regardless of status code (lines 334-337), and
entries land in the title-keyed map with `Uploaded = false`. -/
def processTicketsModel (fetch : Int → FetchResult TicketPage) (key : Str) :
    Nat → Int → List (Str × ticket) → Except Str (List (Str × ticket))
  | 0, _, m => .ok m
  | fuel + 1, startAt, m =>
    match fetch startAt with
    | .err _status msg => .error (ticketsSearchFailMsg key msg)
    | .ok pg =>
      let m' := pg.issues.foldl
        (fun acc ji => insertT acc ji.summary ⟨ji.key, false⟩) m
      if pg.total ≤ pg.startAt + pg.maxResults then .ok m'
      else processTicketsModel fetch key fuel (pg.startAt + pg.maxResults) m'

/-! ### Claim C9: 404 translation in the two listers -/

/-- C9 counterexample. The ticket lister does NOT translate HTTP 404 into a
distinguished not-found condition: a 404 yields exactly the same generic
wrapped error as any other status (here 500), while the issue lister does
distinguish 404. -/
theorem tickets_404_not_distinguished_cex :
    processTicketsModel (fun _ => .err 404 "boom".toList) "PROJ".toList 1 0 [] =
        .error (ticketsSearchFailMsg "PROJ".toList "boom".toList)
    ∧ processTicketsModel (fun _ => .err 500 "boom".toList) "PROJ".toList 1 0 [] =
        processTicketsModel (fun _ => .err 404 "boom".toList) "PROJ".toList 1 0 []
    ∧ processIssuesModel (fun _ => .err 404 "boom".toList) "o".toList "r".toList 1 1 [] =
        .error (issuesNotFoundMsg "o".toList "r".toList) :=
  ⟨rfl, rfl, rfl⟩

/-- C9 amended. Every error the issue lister returns is the translation of
some failed page fetch — the distinguished not-found message when that fetch
carried HTTP 404, the generic contextual wrap otherwise; every error the
ticket lister returns is the same generic contextual wrap for every status,
404 included (no distinguished not-found condition there). -/
theorem lister_error_translation
    (fetchI : Nat → FetchResult IssuePage) (fetchT : Int → FetchResult TicketPage)
    (org repo key : Str) :
    (∀ fuel page m e, processIssuesModel fetchI org repo fuel page m = .error e →
      ∃ p status msg, fetchI p = .err status msg ∧
        e = if status = 404 then issuesNotFoundMsg org repo
            else issuesListFailMsg org repo msg)
    ∧ (∀ fuel startAt m e, processTicketsModel fetchT key fuel startAt m = .error e →
      ∃ a status msg, fetchT a = .err status msg ∧ e = ticketsSearchFailMsg key msg) := by
  constructor
  · intro fuel
    induction fuel with
    | zero => intro page m e h; exact absurd h (by simp [processIssuesModel])
    | succ fuel ih =>
      intro page m e h
      cases hf : fetchI page with
      | err status msg =>
        simp only [processIssuesModel, hf] at h
        by_cases h404 : status = 404
        · rw [if_pos h404] at h
          cases h
          exact ⟨page, status, msg, hf, by rw [if_pos h404]⟩
        · rw [if_neg h404] at h
          cases h
          exact ⟨page, status, msg, hf, by rw [if_neg h404]⟩
      | ok pg =>
        simp only [processIssuesModel, hf] at h
        by_cases hnp : pg.nextPage = 0
        · rw [if_pos hnp] at h
          exact absurd h (by simp)
        · rw [if_neg hnp] at h
          exact ih pg.nextPage _ e h
  · intro fuel
    induction fuel with
    | zero => intro startAt m e h; exact absurd h (by simp [processTicketsModel])
    | succ fuel ih =>
      intro startAt m e h
      cases hf : fetchT startAt with
      | err status msg =>
        simp only [processTicketsModel, hf] at h
        cases h
        exact ⟨startAt, status, msg, hf, rfl⟩
      | ok pg =>
        simp only [processTicketsModel, hf] at h
        by_cases hst : pg.total ≤ pg.startAt + pg.maxResults
        · rw [if_pos hst] at h
          exact absurd h (by simp)
        · rw [if_neg hst] at h
          exact ih _ _ e h

/-- Closed witness for `lister_error_translation`: at a concrete failing
fetch the issue lister yields the not-found translation of a 404 fetch. -/
theorem lister_error_translation_witness :
    ∃ p status msg, (fun (_ : Nat) => FetchResult.err 404 "boom".toList
        (α := IssuePage)) p = .err status msg ∧
      issuesNotFoundMsg "o".toList "r".toList =
        if status = 404 then issuesNotFoundMsg "o".toList "r".toList
        else issuesListFailMsg "o".toList "r".toList msg :=
  (lister_error_translation (fun _ => .err 404 "boom".toList)
    (fun _ => .err 404 "boom".toList) "o".toList "r".toList "PROJ".toList).1
    1 1 [] _ rfl

/-! ### collect (lines 355-433) -/

/-- Outcomes of the I/O and callee stages `collect` depends on; `collect`'s
own control flow (lines 373-432) is embedded over these. A `some` is the
error the callee returned, `none` is its success. -/
structure CollectEnv where
  stageMissing : Bool
  mkdirErr : Option Str
  isEmptyErr : Option Str
  stageEmpty : Bool
  expandErr : Option Str
  attachErr : Option Str
  issuesErr : Option Str
  ticketsErr : Option Str
  marshalErr : Option Str
  writeErr : Option Str

/-- Which observable actions `collect` performed: archive expansion, the two
remote listings (the only remote calls), and the final index write attempt. -/
structure CollectTrace where
  expanded : Bool
  listedIssues : Bool
  listedTickets : Bool
  wroteIndex : Bool
deriving DecidableEq

/-- Lines 407-432: the correlation tail of `collect` after the staging-area
decision. Note lines 430-432 of the source: `err = os.WriteFile(...)` is
assigned but never checked, and the function returns `nil` — the write
error in the environment is deliberately ignored here, mirroring the code. -/
def collectCorrelate (env : CollectEnv) (expanded : Bool) : Option Str × CollectTrace :=
  match env.attachErr with
  | some e => (some ("failed processing attachments: ".toList ++ e),
      ⟨expanded, false, false, false⟩)
  | none =>
    match env.issuesErr with
    | some e => (some ("failed processing issues: ".toList ++ e),
        ⟨expanded, true, false, false⟩)
    | none =>
      match env.ticketsErr with
      | some e => (some ("failed processing tickets: ".toList ++ e),
          ⟨expanded, true, true, false⟩)
      | none =>
        match env.marshalErr with
        | some e => (some ("failed marshalling database: ".toList ++ e),
            ⟨expanded, true, true, false⟩)
        | none => (none, ⟨expanded, true, true, true⟩)

/-- Lines 355-433: `collect`. The JIRA-client constructor error (lines
366-369) is only printed, so it does not appear; staging-directory creation
and emptiness checks come first, then the skip-archive / expansion decision,
then the correlation tail. -/
def collectModel (skipArchive : Bool) (env : CollectEnv) : Option Str × CollectTrace :=
  if env.stageMissing && env.mkdirErr.isSome then
    (some ("failed creating staging directory: ".toList ++ env.mkdirErr.getD []),
      ⟨false, false, false, false⟩)
  else
    match env.isEmptyErr with
    | some e => (some ("failed checking if staging directory empty: ".toList ++ e),
        ⟨false, false, false, false⟩)
    | none =>
      if !skipArchive then
        if env.stageEmpty then
          match env.expandErr with
          | some e => (some ("failed expanding tarball: ".toList ++ e),
              ⟨true, false, false, false⟩)
          | none => collectCorrelate env true
        else collectCorrelate env false
      else
        if env.stageEmpty then
          (some "staging directory is empty, but --skip-archive was specified".toList,
            ⟨false, false, false, false⟩)
        else collectCorrelate env false

theorem collectCorrelate_expanded (env : CollectEnv) (b : Bool) :
    (collectCorrelate env b).2.expanded = b := by
  unfold collectCorrelate
  cases env.attachErr with
  | some e => rfl
  | none =>
    cases env.issuesErr with
    | some e => rfl
    | none =>
      cases env.ticketsErr with
      | some e => rfl
      | none =>
        cases env.marshalErr with
        | some e => rfl
        | none => rfl

/-! ### Claim C8: the dropped index-write error -/

/-- C8 (code bug). With every stage succeeding but the final
`os.WriteFile("database.json", ...)` failing, `collect` still returns `nil`
(success): the write error is assigned to `err` on line 430 and never
checked before `return nil` on line 432. The claim that a failed index
write is reported is contradicted by the code. -/
theorem collect_ignores_write_error :
    collectModel false
        ⟨false, none, none, false, none, none, none, none, none,
          some "disk full".toList⟩ =
      (none, ⟨false, true, true, true⟩) := rfl

/-! ### Claim C10: skip-archive preconditions -/

/-- C10. With the staging-directory bookkeeping itself succeeding:
if skip-extraction is requested and the staging directory is empty,
`collect` fails with the precondition error before any remote call (and
without expanding); if skip-extraction is not requested and the staging
directory is non-empty, the archive is not re-expanded. -/
theorem collect_precondition_and_skip (env : CollectEnv)
    (hm : env.mkdirErr = none) (hi : env.isEmptyErr = none) :
    (env.stageEmpty = true →
      collectModel true env =
        (some "staging directory is empty, but --skip-archive was specified".toList,
          ⟨false, false, false, false⟩))
    ∧ (env.stageEmpty = false →
        (collectModel false env).2.expanded = false) := by
  constructor
  · intro he
    unfold collectModel
    rw [hm, hi, he]
    simp
  · intro he
    unfold collectModel
    rw [hm, hi, he]
    simp [collectCorrelate_expanded]

/-- Closed witness for `collect_precondition_and_skip` at two concrete
environments (one empty staging area under skip-archive, one populated
staging area without it). -/
theorem collect_precondition_and_skip_witness :
    collectModel true ⟨false, none, none, true, none, none, none, none, none, none⟩ =
      (some "staging directory is empty, but --skip-archive was specified".toList,
        ⟨false, false, false, false⟩)
    ∧ (collectModel false
        ⟨false, none, none, false, none, none, none, none, none, none⟩).2.expanded
        = false :=
  ⟨(collect_precondition_and_skip _ rfl rfl).1 rfl,
   (collect_precondition_and_skip _ rfl rfl).2 rfl⟩

/-! ### upload (main.go lines 435-500; unnamed variant lines 385-449)

The two sources are identical except for the mark-as-uploaded statement:
main.go line 483 writes `db.Tickets[title].Uploaded = true` (keyed by the
map's title), the variant line 433 writes `db.Tickets[ticket.Key].Uploaded
= true` (keyed by the ticket's Key field; a missing map entry is a nil
pointer and the assignment panics). The shared loop is embedded once with
a `byKey` flag selecting the variant statement. -/

/-- Outcomes of the per-attachment I/O of the upload loop: whether
`os.Open` succeeds for a staged attachment path, and whether
`PostAttachment` returns no error with status 200 for a
(ticket key, file name) pair. -/
structure UploadEnv where
  openOk : Str → Bool
  postOk : Str → Str → Bool

/-- One attempted `PostAttachment` call. `key` and `name` are the Go call's
arguments; `title` records which tickets-map entry the enclosing iteration
was processing and `success` whether the call succeeded. -/
structure Call where
  title : Str
  key : Str
  name : Str
  success : Bool
deriving DecidableEq

/-- Result of an upload run: `ok` (returned nil), `fail` (returned an
error), or `crash` (the variant's nil-map-entry panic). -/
inductive Outcome where
  | ok
  | fail
  | crash
deriving DecidableEq

/-- State visible after an upload run: the tickets map (equal to the last
persisted `database.json` contents, since the source persists right after
every mutation), the attempted transfer calls, and how the run ended. -/
structure UpRes where
  tickets : List (Str × ticket)
  calls : List Call
  outcome : Outcome
deriving DecidableEq

/-- `db.Tickets[t].Uploaded = true`: mark the entry keyed `t`. -/
def setU (ts : List (Str × ticket)) (t : Str) : List (Str × ticket) :=
  ts.map (fun p => if p.1 = t then (p.1, ⟨p.2.Key, true⟩) else p)

/-- Lines 462-494: the inner attachment loop for one ticket. For every
attachment whose `IssueNumber` matches, the file is opened (failure aborts
with an error before any call), `PostAttachment(key, file, name)` is
attempted with `name` the last `/`-segment of the path, and on success the
mark-as-uploaded statement runs followed by a persist. `byKey = false` is
main.go (mark at `title`); `byKey = true` is the variant (mark at `key`,
panicking when `key` is not a map key). -/
def attLoop (byKey : Bool) (env : UploadEnv) (title key : Str) (num : Int) :
    List attachment → List (Str × ticket) → UpRes
  | [], ts => ⟨ts, [], .ok⟩
  | a :: rest, ts =>
    if a.IssueNumber = num then
      let name := lastTok (splitC '/' a.Path)
      if env.openOk a.Path then
        if env.postOk key name then
          if byKey then
            match lookupT ts key with
            | some _ =>
              let r := attLoop byKey env title key num rest (setU ts key)
              ⟨r.tickets, ⟨title, key, name, true⟩ :: r.calls, r.outcome⟩
            | none => ⟨ts, [⟨title, key, name, true⟩], .crash⟩
          else
            let r := attLoop byKey env title key num rest (setU ts title)
            ⟨r.tickets, ⟨title, key, name, true⟩ :: r.calls, r.outcome⟩
        else ⟨ts, [⟨title, key, name, false⟩], .fail⟩
      else ⟨ts, [], .fail⟩
    else attLoop byKey env title key num rest ts

/-- Lines 456-496: the ticket loop. Iterates the tickets map entries (list
order stands for Go's unspecified map order; all theorems quantify over
it); `ticket.Uploaded` is re-read through the entry pointer, i.e. from the
current state; an `Uploaded` ticket is skipped, a title absent from
`db.Issues` is skipped, otherwise the attachment loop runs and any non-ok
outcome aborts the whole run. -/
def ticketLoop (byKey : Bool) (env : UploadEnv) (iss : List (Str × issue))
    (atts : List attachment) :
    List (Str × ticket) → List (Str × ticket) → UpRes
  | [], ts => ⟨ts, [], .ok⟩
  | (title, tk0) :: rest, ts =>
    let tk := (lookupT ts title).getD tk0
    if tk.Uploaded then ticketLoop byKey env iss atts rest ts
    else
      match lookupT iss title with
      | none => ticketLoop byKey env iss atts rest ts
      | some irec =>
        let r := attLoop byKey env title tk.Key irec.Number atts ts
        match r.outcome with
        | .ok =>
          let r2 := ticketLoop byKey env iss atts rest r.tickets
          ⟨r2.tickets, r.calls ++ r2.calls, r2.outcome⟩
        | o => ⟨r.tickets, r.calls, o⟩

/-- One upload run over a decoded database. -/
def uploadRun (byKey : Bool) (env : UploadEnv) (db : database) : UpRes :=
  ticketLoop byKey env db.Issues db.Attachments db.Tickets db.Tickets

/-- The upload command of main.go. -/
def uploadMain (env : UploadEnv) (db : database) : UpRes := uploadRun false env db

/-- The upload command of the unnamed variant file. -/
def uploadVariant (env : UploadEnv) (db : database) : UpRes := uploadRun true env db

/-- Re-running upload repeatedly without rebuilding the index: each run
reads the tickets state the previous run persisted (issues and attachments
are immutable); the result pairs each run's starting tickets state with its
result. -/
def rerunRuns (iss : List (Str × issue)) (atts : List attachment) :
    List UploadEnv → List (Str × ticket) → List (List (Str × ticket) × UpRes)
  | [], _ => []
  | e :: es, ts =>
    let r := uploadRun false e ⟨atts, iss, ts⟩
    (ts, r) :: rerunRuns iss atts es r.tickets

/-! ### Upload-loop lemmas -/

theorem setU_cons (k : Str) (v : ticket) (l : List (Str × ticket)) (x : Str) :
    setU ((k, v) :: l) x =
      (if k = x then (k, (⟨v.Key, true⟩ : ticket)) else (k, v)) :: setU l x := rfl

theorem lookupT_setU (ts : List (Str × ticket)) (x t : Str) :
    lookupT (setU ts x) t =
      (lookupT ts t).map (fun tk => if t = x then ⟨tk.Key, true⟩ else tk) := by
  induction ts with
  | nil => rfl
  | cons p rest ih =>
    obtain ⟨k, v⟩ := p
    rw [setU_cons]
    by_cases hkx : k = x
    · rw [if_pos hkx]
      by_cases hkt : k = t
      · have htx : t = x := by rw [← hkt]; exact hkx
        rw [lookupT, if_pos hkt, lookupT, if_pos hkt]
        show _ = some (if t = x then (⟨v.Key, true⟩ : ticket) else v)
        rw [if_pos htx]
      · rw [lookupT, if_neg hkt, lookupT, if_neg hkt]
        exact ih
    · rw [if_neg hkx]
      by_cases hkt : k = t
      · have htx : ¬(t = x) := fun h => hkx (by rw [hkt]; exact h)
        rw [lookupT, if_pos hkt, lookupT, if_pos hkt]
        show _ = some (if t = x then (⟨v.Key, true⟩ : ticket) else v)
        rw [if_neg htx]
      · rw [lookupT, if_neg hkt, lookupT, if_neg hkt]
        exact ih

theorem setU_idem (ts : List (Str × ticket)) (x : Str) :
    setU (setU ts x) x = setU ts x := by
  induction ts with
  | nil => rfl
  | cons p rest ih =>
    obtain ⟨k, v⟩ := p
    rw [setU_cons]
    by_cases hkx : k = x
    · rw [if_pos hkx, setU_cons, if_pos hkx, ih]
    · rw [if_neg hkx, setU_cons, if_neg hkx, ih]

theorem mem_lookup_isSome {β : Type} (l : List (Str × β)) (p : Str × β)
    (h : p ∈ l) : (lookupT l p.1).isSome := by
  induction l with
  | nil => simp at h
  | cons q rest ih =>
    obtain ⟨k, v⟩ := q
    by_cases hk : k = p.1
    · rw [lookupT, if_pos hk]
      rfl
    · rw [lookupT, if_neg hk]
      rcases List.mem_cons.1 h with h1 | h1
      · exact absurd (congrArg Prod.fst h1).symm hk
      · exact ih h1

theorem lookup_some_mem {β : Type} (l : List (Str × β)) (t : Str) (v : β)
    (h : lookupT l t = some v) : (t, v) ∈ l := by
  induction l with
  | nil => simp [lookupT] at h
  | cons q rest ih =>
    obtain ⟨k, w⟩ := q
    by_cases hk : k = t
    · subst hk
      rw [lookupT, if_pos rfl] at h
      cases h
      exact List.mem_cons_self _ _
    · rw [lookupT, if_neg hk] at h
      exact List.mem_cons_of_mem _ (ih h)

/-- Any-with-title-filter over a call list whose entries all carry one
title. -/
theorem calls_any_shape (cs : List Call) (ttl : Str)
    (h : ∀ c ∈ cs, c.title = ttl) (t : Str) :
    cs.any (fun c => decide (c.title = t) && c.success) =
      (decide (t = ttl) && cs.any (fun c => c.success)) := by
  induction cs with
  | nil => simp
  | cons c cs ih =>
    have hc := h c (List.mem_cons_self _ _)
    have ihr := ih (fun c hm => h c (List.mem_cons_of_mem _ hm))
    rw [List.any_cons, List.any_cons, ihr, hc]
    by_cases ht : t = ttl
    · subst ht
      simp [Bool.and_or_distrib_left]
    · have : ¬(ttl = t) := fun he => ht he.symm
      simp [ht, this]

/-- Core characterization of the main.go attachment loop: the tickets map
comes out marked at `title` exactly when some transfer call succeeded, and
every logged call carries this iteration's title and key. -/
theorem attLoop_false_spec (env : UploadEnv) (title key : Str) (num : Int)
    (atts : List attachment) : ∀ ts : List (Str × ticket),
    ((attLoop false env title key num atts ts).tickets =
      if (attLoop false env title key num atts ts).calls.any (fun c => c.success)
      then setU ts title else ts)
    ∧ (∀ c ∈ (attLoop false env title key num atts ts).calls,
        c.title = title ∧ c.key = key) := by
  induction atts with
  | nil => intro ts; exact ⟨rfl, by simp [attLoop]⟩
  | cons a rest ih =>
    intro ts
    by_cases hnum : a.IssueNumber = num
    · by_cases hopen : env.openOk a.Path = true
      · by_cases hpost : env.postOk key (lastTok (splitC '/' a.Path)) = true
        · have heq : attLoop false env title key num (a :: rest) ts =
              ⟨(attLoop false env title key num rest (setU ts title)).tickets,
               ⟨title, key, lastTok (splitC '/' a.Path), true⟩ ::
                 (attLoop false env title key num rest (setU ts title)).calls,
               (attLoop false env title key num rest (setU ts title)).outcome⟩ := by
            simp [attLoop, hnum, hopen, hpost]
          obtain ⟨ih1, ih2⟩ := ih (setU ts title)
          constructor
          · rw [heq]
            simp only [List.any_cons]
            rw [ih1]
            by_cases hany :
                (attLoop false env title key num rest (setU ts title)).calls.any
                  (fun c => c.success) = true
            · simp [hany, setU_idem]
            · simp [hany]
          · rw [heq]
            intro c hc
            rcases List.mem_cons.1 hc with h1 | h1
            · subst h1; exact ⟨rfl, rfl⟩
            · exact ih2 c h1
        · have heq : attLoop false env title key num (a :: rest) ts =
              ⟨ts, [⟨title, key, lastTok (splitC '/' a.Path), false⟩], .fail⟩ := by
            simp [attLoop, hnum, hopen, hpost]
          rw [heq]
          exact ⟨by simp, by intro c hc; simp at hc; subst hc; exact ⟨rfl, rfl⟩⟩
      · have heq : attLoop false env title key num (a :: rest) ts =
            ⟨ts, [], .fail⟩ := by
          simp [attLoop, hnum, hopen]
        rw [heq]
        exact ⟨by simp, by simp⟩
    · have heq : attLoop false env title key num (a :: rest) ts =
          attLoop false env title key num rest ts := by
        simp [attLoop, hnum]
      rw [heq]
      exact ih ts

/-- A ticket whose issue number matches no attachment generates no calls,
no marking and no failure. -/
theorem attLoop_no_match (byKey : Bool) (env : UploadEnv) (title key : Str)
    (num : Int) (atts : List attachment) (ts : List (Str × ticket))
    (h : ∀ a ∈ atts, ¬(a.IssueNumber = num)) :
    attLoop byKey env title key num atts ts = ⟨ts, [], .ok⟩ := by
  induction atts with
  | nil => rfl
  | cons a rest ih =>
    have hna := h a (List.mem_cons_self _ _)
    have heq : attLoop byKey env title key num (a :: rest) ts =
        attLoop byKey env title key num rest ts := by
      simp [attLoop, hna]
    rw [heq]
    exact ih (fun a hm => h a (List.mem_cons_of_mem _ hm))

/-- Pointwise evolution of the tickets map during a run: every entry is
either unchanged or has had its flag raised (key preserved); flags are
never lowered. -/
def Evolves (ts0 ts : List (Str × ticket)) : Prop :=
  ∀ t, lookupT ts t = lookupT ts0 t ∨
    ∃ tk, lookupT ts0 t = some tk ∧ lookupT ts t = some ⟨tk.Key, true⟩

theorem Evolves.rfl (ts : List (Str × ticket)) : Evolves ts ts :=
  fun _ => Or.inl (Eq.refl _)

theorem Evolves.setU_right {ts0 ts : List (Str × ticket)} (h : Evolves ts0 ts)
    (x : Str) : Evolves ts0 (setU ts x) := by
  intro t
  rcases h t with h1 | ⟨tk, h0, h1⟩
  · cases h0 : lookupT ts0 t with
    | none =>
      left
      rw [lookupT_setU, h1, h0]
      rfl
    | some tk =>
      by_cases htx : t = x
      · right
        refine ⟨tk, Eq.refl _, ?_⟩
        rw [lookupT_setU, h1, h0]
        show some (if t = x then (⟨tk.Key, true⟩ : ticket) else tk) = _
        rw [if_pos htx]
      · left
        rw [lookupT_setU, h1, h0]
        show some (if t = x then (⟨tk.Key, true⟩ : ticket) else tk) = some tk
        rw [if_neg htx]
  · right
    refine ⟨tk, h0, ?_⟩
    rw [lookupT_setU, h1]
    show some (if t = x then (⟨tk.Key, true⟩ : ticket) else ⟨tk.Key, true⟩) = _
    rw [ite_self]

theorem Evolves.trans {a b c : List (Str × ticket)} (h1 : Evolves a b)
    (h2 : Evolves b c) : Evolves a c := by
  intro t
  rcases h2 t with h2' | ⟨tk, hb, hc⟩
  · rw [h2']; exact h1 t
  · rcases h1 t with h1' | ⟨tk0, ha, hb'⟩
    · right
      exact ⟨tk, by rw [← h1']; exact hb, hc⟩
    · right
      refine ⟨tk0, ha, ?_⟩
      rw [hb'] at hb
      cases hb
      exact hc

theorem Evolves.isSome {ts0 ts : List (Str × ticket)} (h : Evolves ts0 ts)
    {t : Str} (hs : (lookupT ts0 t).isSome) : (lookupT ts t).isSome := by
  rcases h t with h1 | ⟨tk, _, h1⟩
  · rw [h1]; exact hs
  · rw [h1]; rfl

/-- A currently-Pending entry was Pending from the start, with the same
key. -/
theorem Evolves.lookup_back {ts0 ts : List (Str × ticket)} (h : Evolves ts0 ts)
    {t : Str} {tk : ticket} (hl : lookupT ts t = some tk)
    (hup : tk.Uploaded = false) :
    ∃ tk0, lookupT ts0 t = some tk0 ∧ tk0.Uploaded = false ∧ tk0.Key = tk.Key := by
  rcases h t with h1 | ⟨tk0, h0, h1⟩
  · rw [h1] at hl
    exact ⟨tk, hl, hup, Eq.refl _⟩
  · rw [h1] at hl
    cases hl
    simp at hup

theorem attLoop_false_evolves (env : UploadEnv) (title key : Str) (num : Int)
    (atts : List attachment) (ts : List (Str × ticket)) :
    Evolves ts (attLoop false env title key num atts ts).tickets := by
  rw [(attLoop_false_spec env title key num atts ts).1]
  by_cases hany : (attLoop false env title key num atts ts).calls.any
      (fun c => c.success) = true
  · rw [if_pos hany]
    exact Evolves.setU_right (Evolves.rfl ts) title
  · rw [if_neg hany]
    exact Evolves.rfl ts

/-- One `ticketLoop` step: the current ticket is already Uploaded. -/
theorem ticketLoop_cons_uploaded (byKey : Bool) (env : UploadEnv)
    (iss : List (Str × issue)) (atts : List attachment) (title : Str)
    (tk0 : ticket) (rest ts : List (Str × ticket))
    (h : ((lookupT ts title).getD tk0).Uploaded = true) :
    ticketLoop byKey env iss atts ((title, tk0) :: rest) ts =
      ticketLoop byKey env iss atts rest ts := by
  simp [ticketLoop, h]

/-- One `ticketLoop` step: Pending ticket, but no issue shares the title. -/
theorem ticketLoop_cons_noissue (byKey : Bool) (env : UploadEnv)
    (iss : List (Str × issue)) (atts : List attachment) (title : Str)
    (tk0 : ticket) (rest ts : List (Str × ticket))
    (h : ((lookupT ts title).getD tk0).Uploaded = false)
    (hiss : lookupT iss title = none) :
    ticketLoop byKey env iss atts ((title, tk0) :: rest) ts =
      ticketLoop byKey env iss atts rest ts := by
  simp [ticketLoop, h, hiss]

/-- One `ticketLoop` step: Pending ticket matched to an issue; the
attachment loop runs and a non-ok outcome aborts. -/
theorem ticketLoop_cons_run (byKey : Bool) (env : UploadEnv)
    (iss : List (Str × issue)) (atts : List attachment) (title : Str)
    (tk0 : ticket) (rest ts : List (Str × ticket)) (irec : issue)
    (h : ((lookupT ts title).getD tk0).Uploaded = false)
    (hiss : lookupT iss title = some irec) :
    ticketLoop byKey env iss atts ((title, tk0) :: rest) ts =
      (match (attLoop byKey env title ((lookupT ts title).getD tk0).Key
          irec.Number atts ts).outcome with
       | .ok =>
         ⟨(ticketLoop byKey env iss atts rest
             (attLoop byKey env title ((lookupT ts title).getD tk0).Key
               irec.Number atts ts).tickets).tickets,
          (attLoop byKey env title ((lookupT ts title).getD tk0).Key
            irec.Number atts ts).calls ++
            (ticketLoop byKey env iss atts rest
              (attLoop byKey env title ((lookupT ts title).getD tk0).Key
                irec.Number atts ts).tickets).calls,
          (ticketLoop byKey env iss atts rest
            (attLoop byKey env title ((lookupT ts title).getD tk0).Key
              irec.Number atts ts).tickets).outcome⟩
       | o => ⟨(attLoop byKey env title ((lookupT ts title).getD tk0).Key
           irec.Number atts ts).tickets,
          (attLoop byKey env title ((lookupT ts title).getD tk0).Key
            irec.Number atts ts).calls, o⟩) := by
  simp [ticketLoop, h, hiss]

/-- Every transfer call of a run belongs to a ticket that was Pending in
the starting tickets map, and carries that ticket's key. -/
theorem ticketLoop_calls (env : UploadEnv) (iss : List (Str × issue))
    (atts : List attachment) (ts0 : List (Str × ticket)) :
    ∀ (P : List (Str × ticket)) (ts : List (Str × ticket)), Evolves ts0 ts →
    (∀ p ∈ P, (lookupT ts0 p.1).isSome) →
    ∀ c ∈ (ticketLoop false env iss atts P ts).calls,
      ∃ tk, lookupT ts0 c.title = some tk ∧ tk.Uploaded = false ∧
        c.key = tk.Key := by
  intro P
  induction P with
  | nil => intro ts hev hdom c hc; simp [ticketLoop] at hc
  | cons p rest ih =>
    obtain ⟨title, tk0⟩ := p
    intro ts hev hdom c hc
    have hdomr : ∀ p ∈ rest, (lookupT ts0 p.1).isSome :=
      fun p hp => hdom p (List.mem_cons_of_mem _ hp)
    have hsome0 : (lookupT ts0 title).isSome := hdom _ (List.mem_cons_self _ _)
    have hsome : (lookupT ts title).isSome := hev.isSome hsome0
    cases hcur : lookupT ts title with
    | none => rw [hcur] at hsome; exact absurd hsome (by simp)
    | some tkc =>
      have hgetD : (lookupT ts title).getD tk0 = tkc := by rw [hcur]; rfl
      by_cases hup : tkc.Uploaded = true
      · rw [ticketLoop_cons_uploaded false env iss atts title tk0 rest ts
          (by rw [hgetD]; exact hup)] at hc
        exact ih ts hev hdomr c hc
      · have hup' : ((lookupT ts title).getD tk0).Uploaded = false := by
          rw [hgetD]; exact Bool.not_eq_true _ ▸ hup
        cases hiss : lookupT iss title with
        | none =>
          rw [ticketLoop_cons_noissue false env iss atts title tk0 rest ts
            hup' hiss] at hc
          exact ih ts hev hdomr c hc
        | some irec =>
          rw [ticketLoop_cons_run false env iss atts title tk0 rest ts irec
            hup' hiss] at hc
          have hshape := (attLoop_false_spec env title
            ((lookupT ts title).getD tk0).Key irec.Number atts ts).2
          have hback : ∃ tk, lookupT ts0 title = some tk ∧
              tk.Uploaded = false ∧ tkc.Key = tk.Key := by
            obtain ⟨tk1, h1, h2, h3⟩ := hev.lookup_back hcur
              (Bool.not_eq_true _ ▸ hup)
            exact ⟨tk1, h1, h2, h3.symm⟩
          have hfromAtt : ∀ c ∈ (attLoop false env title
              ((lookupT ts title).getD tk0).Key irec.Number atts ts).calls,
              ∃ tk, lookupT ts0 c.title = some tk ∧ tk.Uploaded = false ∧
                c.key = tk.Key := by
            intro c hc'
            obtain ⟨hct, hck⟩ := hshape c hc'
            obtain ⟨tk, h1, h2, h3⟩ := hback
            refine ⟨tk, ?_, h2, ?_⟩
            · rw [hct]; exact h1
            · rw [hck, hgetD, h3]
          cases ho : (attLoop false env title ((lookupT ts title).getD tk0).Key
              irec.Number atts ts).outcome with
          | ok =>
            rw [ho] at hc
            simp only at hc
            rcases List.mem_append.1 hc with h1 | h1
            · exact hfromAtt c h1
            · have hev' : Evolves ts0 (attLoop false env title
                  ((lookupT ts title).getD tk0).Key irec.Number atts ts).tickets :=
                hev.trans (attLoop_false_evolves _ _ _ _ _ _)
              exact ih _ hev' hdomr c h1
          | fail =>
            rw [ho] at hc
            simp only at hc
            exact hfromAtt c hc
          | crash =>
            rw [ho] at hc
            simp only at hc
            exact hfromAtt c hc

/-- If every Pending ticket has no matching issue or no matching
attachments, the run does nothing: no calls, no state change, success. -/
theorem ticketLoop_inert (env : UploadEnv) (iss : List (Str × issue))
    (atts : List attachment) (ts : List (Str × ticket))
    (hts : ∀ t tk, lookupT ts t = some tk → tk.Uploaded = false →
      lookupT iss t = none ∨
        ∃ irec, lookupT iss t = some irec ∧
          ∀ a ∈ atts, ¬(a.IssueNumber = irec.Number)) :
    ∀ P : List (Str × ticket), (∀ p ∈ P, p ∈ ts) →
    ticketLoop false env iss atts P ts = ⟨ts, [], .ok⟩ := by
  intro P
  induction P with
  | nil => intro _; rfl
  | cons p rest ih =>
    obtain ⟨title, tk0⟩ := p
    intro hsub
    have hmem : (title, tk0) ∈ ts := hsub _ (List.mem_cons_self _ _)
    have hsome : (lookupT ts title).isSome := mem_lookup_isSome ts (title, tk0) hmem
    have hsubr : ∀ p ∈ rest, p ∈ ts := fun p hp => hsub p (List.mem_cons_of_mem _ hp)
    cases hcur : lookupT ts title with
    | none => rw [hcur] at hsome; exact absurd hsome (by simp)
    | some tkc =>
      have hgetD : (lookupT ts title).getD tk0 = tkc := by rw [hcur]; rfl
      by_cases hup : tkc.Uploaded = true
      · rw [ticketLoop_cons_uploaded false env iss atts title tk0 rest ts
          (by rw [hgetD]; exact hup)]
        exact ih hsubr
      · have hupf : tkc.Uploaded = false := Bool.not_eq_true _ ▸ hup
        rcases hts title tkc hcur hupf with hiss | ⟨irec, hiss, hnomatch⟩
        · rw [ticketLoop_cons_noissue false env iss atts title tk0 rest ts
            (by rw [hgetD]; exact hupf) hiss]
          exact ih hsubr
        · rw [ticketLoop_cons_run false env iss atts title tk0 rest ts irec
            (by rw [hgetD]; exact hupf) hiss]
          rw [attLoop_no_match false env title ((lookupT ts title).getD tk0).Key
            irec.Number atts ts hnomatch]
          simp only
          rw [ih hsubr]
          rfl

/-- Flag semantics of a main.go upload run: an entry's final flag is its
initial flag OR-ed with "some transfer call for this title succeeded during
the run" — i.e. the ticket transitions as soon as its first matching
transfer succeeds. -/
theorem ticketLoop_flag (env : UploadEnv) (iss : List (Str × issue))
    (atts : List attachment) :
    ∀ (P ts : List (Str × ticket)) (t : Str) (tk : ticket),
    lookupT ts t = some tk →
    lookupT (ticketLoop false env iss atts P ts).tickets t =
      some ⟨tk.Key, tk.Uploaded ||
        (ticketLoop false env iss atts P ts).calls.any
          (fun c => decide (c.title = t) && c.success)⟩ := by
  intro P
  induction P with
  | nil =>
    intro ts t tk hl
    show lookupT ts t = _
    rw [hl]
    cases tk with
    | mk k u => simp [ticketLoop]
  | cons p rest ih =>
    obtain ⟨title, tk0⟩ := p
    intro ts t tk hl
    by_cases hup : ((lookupT ts title).getD tk0).Uploaded = true
    · rw [ticketLoop_cons_uploaded false env iss atts title tk0 rest ts hup]
      exact ih ts t tk hl
    · have hupf : ((lookupT ts title).getD tk0).Uploaded = false :=
        Bool.not_eq_true _ ▸ hup
      cases hiss : lookupT iss title with
      | none =>
        rw [ticketLoop_cons_noissue false env iss atts title tk0 rest ts hupf hiss]
        exact ih ts t tk hl
      | some irec =>
        rw [ticketLoop_cons_run false env iss atts title tk0 rest ts irec hupf hiss]
        have hAspec := attLoop_false_spec env title
          ((lookupT ts title).getD tk0).Key irec.Number atts ts
        generalize hA : attLoop false env title
          ((lookupT ts title).getD tk0).Key irec.Number atts ts = A
        rw [hA] at hAspec
        obtain ⟨hAtk, hAshape⟩ := hAspec
        have hAany : A.calls.any (fun c => decide (c.title = t) && c.success) =
            (decide (t = title) && A.calls.any (fun c => c.success)) :=
          calls_any_shape A.calls title (fun c hc => (hAshape c hc).1) t
        cases ho : A.outcome with
        | ok =>
          simp only
          rw [List.any_append, hAany]
          by_cases hany : A.calls.any (fun c => c.success) = true
          · have hlookA : lookupT A.tickets t =
                some (if t = title then (⟨tk.Key, true⟩ : ticket) else tk) := by
              rw [hAtk, if_pos hany, lookupT_setU, hl]
              rfl
            by_cases ht : t = title
            · rw [if_pos ht] at hlookA
              rw [ih A.tickets t ⟨tk.Key, true⟩ hlookA]
              simp [hany, ht]
            · rw [if_neg ht] at hlookA
              rw [ih A.tickets t tk hlookA]
              simp [ht]
          · have hlookA : lookupT A.tickets t = some tk := by
              rw [hAtk, if_neg hany, hl]
            rw [ih A.tickets t tk hlookA]
            simp [Bool.not_eq_true _ ▸ hany]
        | fail =>
          simp only
          rw [hAany]
          by_cases hany : A.calls.any (fun c => c.success) = true
          · by_cases ht : t = title
            · rw [hAtk, if_pos hany, lookupT_setU, hl]
              show some (if t = title then (⟨tk.Key, true⟩ : ticket) else tk) = _
              rw [if_pos ht]
              simp [hany, ht]
            · rw [hAtk, if_pos hany, lookupT_setU, hl]
              show some (if t = title then (⟨tk.Key, true⟩ : ticket) else tk) = _
              rw [if_neg ht]
              simp [ht]
          · rw [hAtk, if_neg hany, hl]
            simp [Bool.not_eq_true _ ▸ hany]
        | crash =>
          simp only
          rw [hAany]
          by_cases hany : A.calls.any (fun c => c.success) = true
          · by_cases ht : t = title
            · rw [hAtk, if_pos hany, lookupT_setU, hl]
              show some (if t = title then (⟨tk.Key, true⟩ : ticket) else tk) = _
              rw [if_pos ht]
              simp [hany, ht]
            · rw [hAtk, if_pos hany, lookupT_setU, hl]
              show some (if t = title then (⟨tk.Key, true⟩ : ticket) else tk) = _
              rw [if_neg ht]
              simp [ht]
          · rw [hAtk, if_neg hany, hl]
            simp [Bool.not_eq_true _ ▸ hany]

/-- Every entry's Key equals its map key (title). Under this invariant the
variant's key-keyed completion write coincides with main.go's title-keyed
one. -/
def KeysMatch (ts : List (Str × ticket)) : Prop :=
  ∀ t tk, lookupT ts t = some tk → tk.Key = t

theorem KeysMatch.setU_stable {ts : List (Str × ticket)} {x : Str}
    (h : KeysMatch ts) : KeysMatch (setU ts x) := by
  intro t tk hl
  rw [lookupT_setU] at hl
  cases hcur : lookupT ts t with
  | none => rw [hcur] at hl; cases hl
  | some tk0 =>
    rw [hcur] at hl
    injection hl with hl'
    dsimp only at hl'
    have hkey := h t tk0 hcur
    by_cases htx : t = x
    · rw [if_pos htx] at hl'
      rw [← hl']
      exact hkey
    · rw [if_neg htx] at hl'
      rw [← hl']
      exact hkey

theorem isSome_setU (ts : List (Str × ticket)) (x t : Str)
    (h : (lookupT ts t).isSome) : (lookupT (setU ts x) t).isSome := by
  rw [lookupT_setU]
  cases hcur : lookupT ts t with
  | none => rw [hcur] at h; exact absurd h (by simp)
  | some tk0 => rfl

/-- With `key = title` present in the map, the variant's attachment loop
(which marks at `key`) is indistinguishable from main.go's (which marks at
`title`). -/
theorem attLoop_agree (env : UploadEnv) (title key : Str) (num : Int)
    (atts : List attachment) : ∀ ts : List (Str × ticket),
    key = title → (lookupT ts title).isSome →
    attLoop true env title key num atts ts =
      attLoop false env title key num atts ts := by
  induction atts with
  | nil => intro ts _ _; rfl
  | cons a rest ih =>
    intro ts hk hs
    by_cases hnum : a.IssueNumber = num
    · by_cases hopen : env.openOk a.Path = true
      · by_cases hpost : env.postOk key (lastTok (splitC '/' a.Path)) = true
        · subst hk
          cases hcur : lookupT ts key with
          | none => rw [hcur] at hs; exact absurd hs (by simp)
          | some tkc =>
            have h1 : attLoop true env key key num (a :: rest) ts =
                ⟨(attLoop true env key key num rest (setU ts key)).tickets,
                 ⟨key, key, lastTok (splitC '/' a.Path), true⟩ ::
                   (attLoop true env key key num rest (setU ts key)).calls,
                 (attLoop true env key key num rest (setU ts key)).outcome⟩ := by
              simp [attLoop, hnum, hopen, hpost, hcur]
            have h2 : attLoop false env key key num (a :: rest) ts =
                ⟨(attLoop false env key key num rest (setU ts key)).tickets,
                 ⟨key, key, lastTok (splitC '/' a.Path), true⟩ ::
                   (attLoop false env key key num rest (setU ts key)).calls,
                 (attLoop false env key key num rest (setU ts key)).outcome⟩ := by
              simp [attLoop, hnum, hopen, hpost]
            rw [h1, h2, ih (setU ts key) rfl
              (isSome_setU ts key key (by rw [hcur]; rfl))]
        · have h1 : attLoop true env title key num (a :: rest) ts =
              ⟨ts, [⟨title, key, lastTok (splitC '/' a.Path), false⟩], .fail⟩ := by
            simp [attLoop, hnum, hopen, hpost]
          have h2 : attLoop false env title key num (a :: rest) ts =
              ⟨ts, [⟨title, key, lastTok (splitC '/' a.Path), false⟩], .fail⟩ := by
            simp [attLoop, hnum, hopen, hpost]
          rw [h1, h2]
      · have h1 : attLoop true env title key num (a :: rest) ts =
            ⟨ts, [], .fail⟩ := by simp [attLoop, hnum, hopen]
        have h2 : attLoop false env title key num (a :: rest) ts =
            ⟨ts, [], .fail⟩ := by simp [attLoop, hnum, hopen]
        rw [h1, h2]
    · have h1 : attLoop true env title key num (a :: rest) ts =
          attLoop true env title key num rest ts := by simp [attLoop, hnum]
      have h2 : attLoop false env title key num (a :: rest) ts =
          attLoop false env title key num rest ts := by simp [attLoop, hnum]
      rw [h1, h2]
      exact ih ts hk hs

/-- With keys matching titles throughout, the variant's ticket loop is
indistinguishable from main.go's. -/
theorem ticketLoop_agree (env : UploadEnv) (iss : List (Str × issue))
    (atts : List attachment) :
    ∀ (P ts : List (Str × ticket)), KeysMatch ts →
    (∀ p ∈ P, (lookupT ts p.1).isSome) →
    ticketLoop true env iss atts P ts = ticketLoop false env iss atts P ts := by
  intro P
  induction P with
  | nil => intro ts _ _; rfl
  | cons p rest ih =>
    obtain ⟨title, tk0⟩ := p
    intro ts hkm hdom
    have hs : (lookupT ts title).isSome := hdom _ (List.mem_cons_self _ _)
    have hdomr : ∀ p ∈ rest, (lookupT ts p.1).isSome :=
      fun p hp => hdom p (List.mem_cons_of_mem _ hp)
    cases hcur : lookupT ts title with
    | none => rw [hcur] at hs; exact absurd hs (by simp)
    | some tkc =>
      have hgetD : (lookupT ts title).getD tk0 = tkc := by rw [hcur]; rfl
      have hKey : tkc.Key = title := hkm title tkc hcur
      by_cases hup : tkc.Uploaded = true
      · rw [ticketLoop_cons_uploaded true env iss atts title tk0 rest ts
            (by rw [hgetD]; exact hup),
          ticketLoop_cons_uploaded false env iss atts title tk0 rest ts
            (by rw [hgetD]; exact hup)]
        exact ih ts hkm hdomr
      · have hupf : ((lookupT ts title).getD tk0).Uploaded = false := by
          rw [hgetD]; exact Bool.not_eq_true _ ▸ hup
        cases hiss : lookupT iss title with
        | none =>
          rw [ticketLoop_cons_noissue true env iss atts title tk0 rest ts hupf hiss,
            ticketLoop_cons_noissue false env iss atts title tk0 rest ts hupf hiss]
          exact ih ts hkm hdomr
        | some irec =>
          rw [ticketLoop_cons_run true env iss atts title tk0 rest ts irec hupf hiss,
            ticketLoop_cons_run false env iss atts title tk0 rest ts irec hupf hiss,
            attLoop_agree env title ((lookupT ts title).getD tk0).Key irec.Number
              atts ts (by rw [hgetD]; exact hKey) hs]
          have hAspec := attLoop_false_spec env title
            ((lookupT ts title).getD tk0).Key irec.Number atts ts
          generalize hA : attLoop false env title
            ((lookupT ts title).getD tk0).Key irec.Number atts ts = A
          rw [hA] at hAspec
          have hkm' : KeysMatch A.tickets := by
            rw [hAspec.1]
            by_cases hany : A.calls.any (fun c => c.success) = true
            · rw [if_pos hany]; exact hkm.setU_stable
            · rw [if_neg hany]; exact hkm
          have hdom' : ∀ p ∈ rest, (lookupT A.tickets p.1).isSome := by
            intro p hp
            rw [hAspec.1]
            by_cases hany : A.calls.any (fun c => c.success) = true
            · rw [if_pos hany]; exact isSome_setU ts title p.1 (hdomr p hp)
            · rw [if_neg hany]; exact hdomr p hp
          cases ho : A.outcome with
          | ok =>
            simp only
            rw [ih A.tickets hkm' hdom']
          | fail => rfl
          | crash => rfl

/-- Call attribution lifted to a whole run. -/
theorem uploadRun_calls (env : UploadEnv) (db : database) :
    ∀ c ∈ (uploadRun false env db).calls,
      ∃ tk, lookupT db.Tickets c.title = some tk ∧ tk.Uploaded = false ∧
        c.key = tk.Key :=
  fun c hc => ticketLoop_calls env db.Issues db.Attachments db.Tickets
    db.Tickets db.Tickets (Evolves.rfl _)
    (fun p hp => mem_lookup_isSome _ p hp) c hc

/-- Flag semantics lifted to a whole run. -/
theorem uploadRun_flag (env : UploadEnv) (db : database) (t : Str) (tk : ticket)
    (hl : lookupT db.Tickets t = some tk) :
    lookupT (uploadRun false env db).tickets t =
      some ⟨tk.Key, tk.Uploaded || (uploadRun false env db).calls.any
        (fun c => decide (c.title = t) && c.success)⟩ :=
  ticketLoop_flag env db.Issues db.Attachments db.Tickets db.Tickets t tk hl

/-- An already-Uploaded entry is untouched by a run. -/
theorem uploadRun_uploaded_stable (env : UploadEnv) (db : database) (t : Str)
    (tk : ticket) (hl : lookupT db.Tickets t = some tk)
    (hupl : tk.Uploaded = true) :
    lookupT (uploadRun false env db).tickets t = some tk := by
  have h := uploadRun_flag env db t tk hl
  cases tk with
  | mk k u =>
    cases hupl
    simpa using h

/-! ### Claim C5: when the uploaded flag transitions -/

/-- C5 counterexample data: one Pending ticket matched to issue 42 with two
matching attachments. -/
def dbTwoAtts : database :=
  ⟨[⟨"issue".toList, [], 42, 0, "a/b/c/f1.png".toList⟩,
    ⟨"issue".toList, [], 42, 0, "a/b/c/f2.png".toList⟩],
   [("Bug X".toList, ⟨"u".toList, 42⟩)],
   [("Bug X".toList, ⟨"PROJ-7".toList, false⟩)]⟩

/-- Transfers succeed only for the file named `f1.png`. -/
def envFirstOnly : UploadEnv :=
  ⟨fun _ => true, fun _ name => name == "f1.png".toList⟩

/-- C5 counterexample. With two matching attachments where the first
transfer succeeds and the second fails, the run aborts with an error yet
the ticket is already marked Uploaded (and persisted as such), even though
the attachment `f2.png` was never successfully transferred — refuting
"transitions only after every matching AttachmentRecord has been
successfully transferred". -/
theorem upload_marks_before_all_transfers_cex :
    uploadMain envFirstOnly dbTwoAtts =
      ⟨[("Bug X".toList, ⟨"PROJ-7".toList, true⟩)],
       [⟨"Bug X".toList, "PROJ-7".toList, "f1.png".toList, true⟩,
        ⟨"Bug X".toList, "PROJ-7".toList, "f2.png".toList, false⟩],
       .fail⟩ := by
  decide

/-- C5 amended. A ticket's flag transitions to Uploaded as soon as the
FIRST matching attachment transfer succeeds, not only after all of them:
an entry's final flag is its initial flag OR "some transfer call for this
title succeeded". A ticket whose title matches no issue, or whose matched
issue has zero matching attachments, never transitions and causes no error:
if every Pending ticket is of that kind the run is a no-op returning
success. -/
theorem upload_flag_first_success (env : UploadEnv) (db : database) :
    (∀ t tk, lookupT db.Tickets t = some tk →
      lookupT (uploadMain env db).tickets t =
        some ⟨tk.Key, tk.Uploaded ||
          (uploadMain env db).calls.any
            (fun c => decide (c.title = t) && c.success)⟩)
    ∧ ((∀ t tk, lookupT db.Tickets t = some tk → tk.Uploaded = false →
          lookupT db.Issues t = none ∨
          ∃ irec, lookupT db.Issues t = some irec ∧
            ∀ a ∈ db.Attachments, ¬(a.IssueNumber = irec.Number)) →
        uploadMain env db = ⟨db.Tickets, [], .ok⟩) :=
  ⟨fun t tk hl => uploadRun_flag env db t tk hl,
   fun h => ticketLoop_inert env db.Issues db.Attachments db.Tickets h
     db.Tickets (fun _ hp => hp)⟩

/-- Closed witness for `upload_flag_first_success` at the concrete
counterexample database. -/
theorem upload_flag_first_success_witness :
    lookupT (uploadMain envFirstOnly dbTwoAtts).tickets "Bug X".toList =
      some ⟨"PROJ-7".toList, false ||
        (uploadMain envFirstOnly dbTwoAtts).calls.any
          (fun c => decide (c.title = "Bug X".toList) && c.success)⟩ :=
  (upload_flag_first_success envFirstOnly dbTwoAtts).1 "Bug X".toList
    ⟨"PROJ-7".toList, false⟩ (by decide)

/-! ### Claim C6: resumability, skipping Uploaded tickets -/

/-- C6. Across any sequence of re-runs of the upload command without
rebuilding the index: every transfer call of every run belongs to a ticket
that was Pending at that run's start (and carries its key) — transfers
happen only for not-yet-Uploaded tickets; and a ticket Uploaded in the
initial index is untouched by every run and never referenced by any
transfer call of any run. -/
theorem upload_resume_no_retransfer (iss : List (Str × issue))
    (atts : List attachment) (envs : List UploadEnv) :
    ∀ ts0 : List (Str × ticket), ∀ pr ∈ rerunRuns iss atts envs ts0,
      (∀ c ∈ pr.2.calls, ∃ tk, lookupT pr.1 c.title = some tk ∧
        tk.Uploaded = false ∧ c.key = tk.Key)
      ∧ (∀ t tk, lookupT ts0 t = some tk → tk.Uploaded = true →
          lookupT pr.1 t = some tk ∧ lookupT pr.2.tickets t = some tk ∧
            ∀ c ∈ pr.2.calls, c.title ≠ t) := by
  induction envs with
  | nil => intro ts0 pr hpr; simp [rerunRuns] at hpr
  | cons e es ih =>
    intro ts0 pr hpr
    simp only [rerunRuns, List.mem_cons] at hpr
    rcases hpr with hpr | hpr
    · subst hpr
      constructor
      · intro c hc
        exact uploadRun_calls e ⟨atts, iss, ts0⟩ c hc
      · intro t tk hl hupl
        refine ⟨hl, uploadRun_uploaded_stable e ⟨atts, iss, ts0⟩ t tk hl hupl, ?_⟩
        intro c hc hct
        obtain ⟨tk', h1, h2, _⟩ := uploadRun_calls e ⟨atts, iss, ts0⟩ c hc
        rw [hct, hl] at h1
        cases h1
        rw [hupl] at h2
        simp at h2
    · have ihr := ih (uploadRun false e ⟨atts, iss, ts0⟩).tickets pr hpr
      refine ⟨ihr.1, ?_⟩
      intro t tk hl hupl
      have hmid : lookupT (uploadRun false e ⟨atts, iss, ts0⟩).tickets t = some tk :=
        uploadRun_uploaded_stable e ⟨atts, iss, ts0⟩ t tk hl hupl
      exact ihr.2 t tk hmid hupl

/-- A one-entry already-Uploaded index, for the C6 witness. -/
def tsUploadedOne : List (Str × ticket) :=
  [("Bug X".toList, ⟨"PROJ-7".toList, true⟩)]

/-- C7 data: one Pending ticket whose Key differs from its title. -/
def dbOneAtt : database :=
  ⟨[⟨"issue".toList, [], 42, 0, "a/b/c/f.png".toList⟩,],
   [("Bug X".toList, ⟨"u".toList, 42⟩)],
   [("Bug X".toList, ⟨"PROJ-7".toList, false⟩)]⟩

/-- Environment in which every open and transfer succeeds. -/
def envAllOk : UploadEnv := ⟨fun _ => true, fun _ _ => true⟩

/-- Closed witness for `upload_resume_no_retransfer`: re-running over an
index whose only ticket is already Uploaded leaves it untouched. -/
theorem upload_resume_no_retransfer_witness :
    lookupT (uploadRun false envAllOk
        ⟨dbOneAtt.Attachments, dbOneAtt.Issues, tsUploadedOne⟩).tickets
      "Bug X".toList = some ⟨"PROJ-7".toList, true⟩ := by
  have h := upload_resume_no_retransfer dbOneAtt.Issues dbOneAtt.Attachments
    [envAllOk] tsUploadedOne
    (tsUploadedOne, uploadRun false envAllOk
      ⟨dbOneAtt.Attachments, dbOneAtt.Issues, tsUploadedOne⟩)
    (List.mem_cons_self _ _)
  exact (h.2 "Bug X".toList ⟨"PROJ-7".toList, true⟩ (by decide) rfl).2.1

/-! ### Claim C7: the two upload implementations -/

/-- C7 counterexample. On a ticket whose Key (`PROJ-7`) differs from its
title (`Bug X`) — the normal situation — main.go's upload succeeds and
marks the ticket, while the variant's upload panics on the nil map entry
`db.Tickets["PROJ-7"]` right after the first successful transfer: the two
implementations are NOT observationally equivalent. -/
theorem upload_variants_differ_cex :
    (uploadVariant envAllOk dbOneAtt).outcome = .crash
    ∧ (uploadMain envAllOk dbOneAtt).outcome = .ok
    ∧ uploadVariant envAllOk dbOneAtt ≠ uploadMain envAllOk dbOneAtt := by
  decide

/-- C7 amended. main.go keys the completion write by the ticket's title
(the tickets map's declared key); the variant keys it by the ticket's Key
field; the two implementations agree exactly in the special case that
every ticket's Key equals its title — in general (Key ≠ title) the variant
dereferences a missing map entry and crashes where main.go succeeds. -/
theorem upload_variants_agree_on_key_eq_title (env : UploadEnv) (db : database)
    (h : ∀ p ∈ db.Tickets, p.2.Key = p.1) :
    uploadVariant env db = uploadMain env db :=
  ticketLoop_agree env db.Issues db.Attachments db.Tickets db.Tickets
    (fun t tk hl => h (t, tk) (lookup_some_mem _ _ _ hl))
    (fun p hp => mem_lookup_isSome _ p hp)

/-- C7 witness data: the same single-ticket database with Key equal to the
title. -/
def dbKeyTitle : database :=
  ⟨[⟨"issue".toList, [], 42, 0, "a/b/c/f.png".toList⟩],
   [("PROJ-7".toList, ⟨"u".toList, 42⟩)],
   [("PROJ-7".toList, ⟨"PROJ-7".toList, false⟩)]⟩

/-- Closed witness for `upload_variants_agree_on_key_eq_title`. -/
theorem upload_variants_agree_witness :
    uploadVariant envAllOk dbKeyTitle = uploadMain envAllOk dbKeyTitle :=
  upload_variants_agree_on_key_eq_title envAllOk dbKeyTitle (by decide)

end AttachProc
